import Mathlib

/-!
Verification of the project-board application (`src/app.ts`) against its
natural-language specification.  The TypeScript source is shallowly embedded:
JavaScript numbers are modelled as integers plus NaN (the only numeric values
the program's validation pipeline lets through are integers in a small range),
arrays are Lean lists, in-place mutation is explicit state passing, and the
synchronous listener fan-out is a fold over the registered listener functions.
-/

/-- Embeds `enum ProjectStatus { Active, Finished }`. -/
inductive ProjectStatus where
  | Active
  | Finished
deriving DecidableEq

/-- Model of a JavaScript number as used by this program: either NaN or an
integer value.  (Fractional, infinite and signed-zero values are never
produced by the modelled code paths and are outside the model.) -/
inductive JSNum where
  | nan
  | int (n : Int)
deriving DecidableEq

/-- A JavaScript `string | number` value, the domain of the validator. -/
inductive JSValue where
  | str (s : String)
  | num (v : JSNum)
deriving DecidableEq

/-- Model of JavaScript `String.prototype.trim`: drop leading and trailing
whitespace characters. -/
def jsTrim (s : String) : String :=
  ⟨((s.data.dropWhile Char.isWhitespace).reverse.dropWhile Char.isWhitespace).reverse⟩

/-- The character for one decimal digit (only values below 10 occur). -/
def digitChar (n : Nat) : Char :=
  if n = 0 then '0' else if n = 1 then '1' else if n = 2 then '2'
  else if n = 3 then '3' else if n = 4 then '4' else if n = 5 then '5'
  else if n = 6 then '6' else if n = 7 then '7' else if n = 8 then '8'
  else if n = 9 then '9' else '?'

/-- Fuel-driven decimal printer for naturals (fuel `n+1` always suffices),
mirroring the runtime's decimal printing. -/
def natToDigitsAux : Nat → Nat → List Char
  | 0, _ => []
  | fuel + 1, n =>
    if n < 10 then [digitChar n]
    else natToDigitsAux fuel (n / 10) ++ [digitChar (n % 10)]

/-- Decimal representation of a natural number. -/
def natRepr (n : Nat) : String :=
  ⟨natToDigitsAux (n + 1) n⟩

/-- Model of JavaScript `Number.prototype.toString` (base 10). -/
def jsNumToString : JSNum → String
  | JSNum.nan => "NaN"
  | JSNum.int n => if n < 0 then "-" ++ natRepr n.natAbs else natRepr n.toNat

/-- Model of JavaScript `.toString()` on a `string | number` value. -/
def jsToString : JSValue → String
  | JSValue.str s => s
  | JSValue.num v => jsNumToString v

/-- JavaScript `>=` against a numeric bound: false whenever the value is NaN. -/
def jsGe : JSNum → Int → Bool
  | JSNum.nan, _ => false
  | JSNum.int n, m => decide (n ≥ m)

/-- JavaScript `<=` against a numeric bound: false whenever the value is NaN. -/
def jsLe : JSNum → Int → Bool
  | JSNum.nan, _ => false
  | JSNum.int n, m => decide (n ≤ m)

/-- Embeds `interface Validatable` (src/app.ts:83-90); absent optional fields
are the defaults (`required` absent/undefined is falsy). -/
structure Validatable where
  value : JSValue
  required : Bool := false
  minLength : Option Int := none
  maxLength : Option Int := none
  min : Option Int := none
  max : Option Int := none
deriving DecidableEq

/-- Embeds `function validator(arg: Validatable)` (src/app.ts:92-110): a
conjunctive accumulator over the configured checks; length checks apply only
to string values, numeric bounds only to number values. -/
def validator (arg : Validatable) : Bool :=
  let isValid := true
  let isValid :=
    if arg.required then
      isValid && ((jsTrim (jsToString arg.value)).length != 0)
    else isValid
  let isValid :=
    match arg.minLength, arg.value with
    | some minLength, JSValue.str s => isValid && decide ((s.length : Int) ≥ minLength)
    | _, _ => isValid
  let isValid :=
    match arg.maxLength, arg.value with
    | some maxLength, JSValue.str s => isValid && decide ((s.length : Int) ≤ maxLength)
    | _, _ => isValid
  let isValid :=
    match arg.min, arg.value with
    | some lo, JSValue.num v => isValid && jsGe v lo
    | _, _ => isValid
  let isValid :=
    match arg.max, arg.value with
    | some hi, JSValue.num v => isValid && jsLe v hi
    | _, _ => isValid
  isValid

/-- Spec-side restatement of the validator contract (spec §4.1), for the
refinement claim: true iff every configured constraint that applies to the
value's type is satisfied; length constraints apply only to strings, numeric
bounds only to numbers, `required` to the value's (trimmed) string form. -/
def validatorSpec (arg : Validatable) : Prop :=
  (arg.required = true → (jsTrim (jsToString arg.value)).length ≠ 0)
  ∧ (∀ ml s, arg.minLength = some ml → arg.value = JSValue.str s →
      (s.length : Int) ≥ ml)
  ∧ (∀ ml s, arg.maxLength = some ml → arg.value = JSValue.str s →
      (s.length : Int) ≤ ml)
  ∧ (∀ lo v, arg.min = some lo → arg.value = JSValue.num v → jsGe v lo = true)
  ∧ (∀ hi v, arg.max = some hi → arg.value = JSValue.num v → jsLe v hi = true)

/-- Numeric value of a decimal digit character. -/
def digitVal (c : Char) : Nat := c.toNat - '0'.toNat

/-- Accumulate a decimal digit string into a natural; `none` on a non-digit. -/
def parseDigits (cs : List Char) : Option Nat :=
  cs.foldl
    (fun acc c =>
      match acc with
      | some n => if c.isDigit then some (n * 10 + digitVal c) else none
      | none => none)
    (some 0)

/-- Model of JavaScript string-to-number coercion (unary `+`, src/app.ts:269,
273): whitespace-only strings coerce to 0, signed decimal-integer strings to
their value, and all other strings are modelled as NaN.  (Fractional,
exponential and hex literal forms are outside the model.) -/
def toNumber (s : String) : JSNum :=
  match (jsTrim s).data with
  | [] => JSNum.int 0
  | '-' :: rest =>
    match rest, parseDigits rest with
    | _ :: _, some n => JSNum.int (-(n : Int))
    | _, _ => JSNum.nan
  | '+' :: rest =>
    match rest, parseDigits rest with
    | _ :: _, some n => JSNum.int (n : Int)
    | _, _ => JSNum.nan
  | cs =>
    match parseDigits cs with
    | some n => JSNum.int (n : Int)
    | none => JSNum.nan

/-- Embeds `class Project` (src/app.ts:17-25). -/
structure Project where
  id : String
  title : String
  description : String
  people : JSNum
  status : ProjectStatus
deriving DecidableEq

/-- A subscriber callback `Listener<Project> = (items: Project[]) => void`;
its side effect on the surrounding world is modelled as a state transformer
on an abstract environment type. -/
def Listener (σ : Type) := List Project → σ → σ

/-- Embeds `State.addListener` (src/app.ts:32-34): push appends. -/
def addListener {σ : Type} (listeners : List (Listener σ)) (l : Listener σ) :
    List (Listener σ) :=
  listeners ++ [l]

/-- Embeds `ProjectState.updateListeners` (src/app.ts:74-78): invoke every
registered listener in registration order, each on a copy of the current
project array (`this.projects.slice()`; a copy is value-equal to the array). -/
def updateListeners {σ : Type} (listeners : List (Listener σ))
    (projects : List Project) (env : σ) : σ :=
  listeners.foldl (fun e l => l projects e) env

/-- Embeds `ProjectState.addProjects` (src/app.ts:54-64).  The id drawn from
`Math.random().toString()` is modelled as the environment-supplied `newId`.
The second component is the list of notification events fired by the call
(snapshots handed to `updateListeners`), here exactly one. -/
def addProjects (ps : List Project) (newId title description : String)
    (people : JSNum) : List Project × List (List Project) :=
  let newProject : Project := ⟨newId, title, description, people, ProjectStatus.Active⟩
  let ps' := ps ++ [newProject]
  (ps', [ps'])

/-- In-place status mutation of the first project with the given id
(the object `Array.prototype.find` returns on src/app.ts:67). -/
def setStatusFirst (ps : List Project) (projectId : String)
    (newStatus : ProjectStatus) : List Project :=
  match ps with
  | [] => []
  | p :: rest =>
    if p.id == projectId then { p with status := newStatus } :: rest
    else p :: setStatusFirst rest projectId newStatus

/-- Embeds `ProjectState.moveProject` (src/app.ts:66-72).  The second
component is the list of notification events fired by the call. -/
def moveProject (ps : List Project) (projectId : String)
    (newStatus : ProjectStatus) : List Project × List (List Project) :=
  match ps.find? (fun el => el.id == projectId) with
  | some project =>
    if project.status ≠ newStatus then
      let ps' := setStatusFirst ps projectId newStatus
      (ps', [ps'])
    else (ps, [])
  | none => (ps, [])

/-- The two lane kinds (`"active" | "finished"`, src/app.ts:170). -/
inductive LaneType where
  | active
  | finished
deriving DecidableEq

/-- Embeds the lane's listener filter (src/app.ts:215-218). -/
def relevantProjects (laneType : LaneType) (projects : List Project) :
    List Project :=
  projects.filter fun proj =>
    if laneType = LaneType.active then proj.status == ProjectStatus.Active
    else proj.status == ProjectStatus.Finished

/-- The three input fields of the form (`titleElement.value` etc.). -/
structure FormFields where
  title : String
  description : String
  people : String
deriving DecidableEq

/-- Embeds `ProjectInput.gatherUserInput` (src/app.ts:261-275): `none` is the
`alert` branch (the function returns void), `some` the gathered tuple. -/
def gatherUserInput (title description people : String) :
    Option (String × String × JSNum) :=
  if !validator { value := JSValue.str title, required := true }
      || !validator { value := JSValue.str description, required := true, minLength := some 5 }
      || !validator { value := JSValue.num (toNumber people), required := true,
                      min := some 0, max := some 5 } then
    none
  else
    some (title, description, toNumber people)

/-- Observable outcome of one form submission: the field contents afterwards,
the store contents afterwards, the notification events fired, and whether the
blocking warning was shown. -/
structure SubmitResult where
  fields : FormFields
  projects : List Project
  notifications : List (List Project)
  alerted : Bool
deriving DecidableEq

/-- Embeds `ProjectInput.handleSubmit` (src/app.ts:283-292) together with
`clearInputs` (src/app.ts:277-281): on a gathered tuple, add the project and
clear the fields; otherwise the alert has fired and nothing else happens. -/
def handleSubmit (fields : FormFields) (ps : List Project) (newId : String) :
    SubmitResult :=
  match gatherUserInput fields.title fields.description fields.people with
  | some (title, description, people) =>
    let r := addProjects ps newId title description people
    ⟨⟨"", "", ""⟩, r.1, r.2, false⟩
  | none => ⟨fields, ps, [], true⟩

/-- Store states reachable through the program's public interface: the empty
initial store, form submissions (with an arbitrary generated id), and
drag-and-drop moves. -/
inductive Reachable : List Project → Prop where
  | init : Reachable []
  | submit (fields : FormFields) (newId : String) {ps : List Project} :
      Reachable ps → Reachable (handleSubmit fields ps newId).projects
  | move (pid : String) (st : ProjectStatus) {ps : List Project} :
      Reachable ps → Reachable (moveProject ps pid st).1

/-- Everything about a project except its mutable status field. -/
def projectCore (p : Project) : String × String × String × JSNum :=
  (p.id, p.title, p.description, p.people)

/-- Recording environment: the chronological list of deliveries, each a
listener index paired with the snapshot it received. -/
abbrev Trace := List (Nat × List Project)

/-- The `n`-th recording listener. -/
def recListener (i : Nat) : Listener Trace :=
  fun snap tr => tr ++ [(i, snap)]

/-- `n` recording listeners registered one after the other via `addListener`. -/
def recListeners : Nat → List (Listener Trace)
  | 0 => []
  | n + 1 => addListener (recListeners n) (recListener n)

/-! ### Helper lemmas -/

theorem setStatusFirst_map_core (ps : List Project) (pid : String)
    (st : ProjectStatus) :
    (setStatusFirst ps pid st).map projectCore = ps.map projectCore := by
  induction ps with
  | nil => rfl
  | cons p rest ih =>
    by_cases h : (p.id == pid) = true
    · simp [setStatusFirst, h, projectCore]
    · simp [setStatusFirst, h, ih]

theorem setStatusFirst_length (ps : List Project) (pid : String)
    (st : ProjectStatus) :
    (setStatusFirst ps pid st).length = ps.length := by
  have h := congrArg List.length (setStatusFirst_map_core ps pid st)
  simpa using h

theorem find?_some_context (ps : List Project) (pid : String) (p : Project)
    (h : ps.find? (fun el => el.id == pid) = some p) :
    ∃ pre post, ps = pre ++ p :: post ∧ (∀ q ∈ pre, (q.id == pid) = false) ∧
      p.id = pid ∧
      ∀ st, setStatusFirst ps pid st = pre ++ { p with status := st } :: post := by
  induction ps with
  | nil => simp [List.find?] at h
  | cons a rest ih =>
    by_cases ha : (a.id == pid) = true
    · have hap : a = p := by simpa [List.find?, ha] using h
      subst hap
      refine ⟨[], rest, by simp, by simp, by simpa using ha, ?_⟩
      intro st
      simp [setStatusFirst, ha]
    · have h' : rest.find? (fun el => el.id == pid) = some p := by
        simpa [List.find?, ha] using h
      obtain ⟨pre, post, hsplit, hpre, hpid, hset⟩ := ih h'
      refine ⟨a :: pre, post, by simp [hsplit], ?_, hpid, ?_⟩
      · intro q hq
        rcases List.mem_cons.mp hq with rfl | hq'
        · simpa using ha
        · exact hpre q hq'
      · intro st
        simp [setStatusFirst, ha, hset st]

theorem find?_append_first (pre post : List Project) (x : Project)
    (pid : String) (hpre : ∀ q ∈ pre, (q.id == pid) = false)
    (hx : (x.id == pid) = true) :
    (pre ++ x :: post).find? (fun el => el.id == pid) = some x := by
  induction pre with
  | nil => simp [List.find?, hx]
  | cons a as ih =>
    have ha : (a.id == pid) = false := hpre a (by simp)
    simp only [List.cons_append, List.find?, ha]
    exact ih fun q hq => hpre q (List.mem_cons_of_mem a hq)

theorem moveProject_map_core (ps : List Project) (pid : String)
    (st : ProjectStatus) :
    ((moveProject ps pid st).1).map projectCore = ps.map projectCore := by
  cases h : ps.find? (fun el => el.id == pid) with
  | none => simp [moveProject, h]
  | some project =>
    by_cases hs : project.status ≠ st
    · simp only [moveProject, h, if_pos hs]
      exact setStatusFirst_map_core ps pid st
    · simp [moveProject, h, hs]

theorem digitChar_not_whitespace (m : Nat) :
    (digitChar m).isWhitespace = false := by
  unfold digitChar
  repeat' split
  all_goals decide

theorem natToDigitsAux_digits (fuel : Nat) :
    ∀ n c, c ∈ natToDigitsAux fuel n → ∃ m, c = digitChar m := by
  induction fuel with
  | zero =>
    intro n c h
    simp [natToDigitsAux] at h
  | succ fuel ih =>
    intro n c h
    by_cases hn : n < 10
    · simp [natToDigitsAux, hn] at h
      exact ⟨n, h⟩
    · simp only [natToDigitsAux, if_neg hn, List.mem_append,
        List.mem_singleton] at h
      rcases h with h | h
      · exact ih _ _ h
      · exact ⟨n % 10, h⟩

theorem natToDigitsAux_ne_nil (fuel n : Nat) :
    natToDigitsAux (fuel + 1) n ≠ [] := by
  by_cases hn : n < 10 <;> simp [natToDigitsAux, hn]

theorem natRepr_ne_nil (n : Nat) : (natRepr n).data ≠ [] :=
  natToDigitsAux_ne_nil n n

theorem natRepr_not_whitespace (n : Nat) :
    ∀ c ∈ (natRepr n).data, c.isWhitespace = false := by
  intro c hc
  obtain ⟨m, rfl⟩ := natToDigitsAux_digits (n + 1) n c hc
  exact digitChar_not_whitespace m

theorem jsNumToString_ne_nil (v : JSNum) : (jsNumToString v).data ≠ [] := by
  cases v with
  | nan => decide
  | int n =>
    by_cases hn : n < 0 <;>
      simp [jsNumToString, hn, natRepr_ne_nil]

theorem jsNumToString_not_whitespace (v : JSNum) :
    ∀ c ∈ (jsNumToString v).data, c.isWhitespace = false := by
  cases v with
  | nan => decide
  | int n =>
    intro c hc
    by_cases hn : n < 0
    · simp only [jsNumToString, if_pos hn] at hc
      rcases List.mem_append.mp hc with h | h
      · have : c = '-' := by simpa using h
        simp [this]
      · exact natRepr_not_whitespace _ c h
    · simp only [jsNumToString, if_neg hn] at hc
      exact natRepr_not_whitespace _ c hc

theorem dropWhile_eq_self_of_all_false {p : Char → Bool} (l : List Char)
    (h : ∀ c ∈ l, p c = false) : l.dropWhile p = l := by
  cases l with
  | nil => rfl
  | cons a as => simp [List.dropWhile, h a (by simp)]

theorem jsTrim_eq_self (s : String)
    (h : ∀ c ∈ s.data, c.isWhitespace = false) : jsTrim s = s := by
  obtain ⟨l⟩ := s
  show String.mk
    (((l.dropWhile Char.isWhitespace).reverse.dropWhile
        Char.isWhitespace).reverse) = String.mk l
  rw [dropWhile_eq_self_of_all_false l h,
    dropWhile_eq_self_of_all_false l.reverse
      (fun c hc => h c (List.mem_reverse.mp hc)),
    List.reverse_reverse]

theorem string_length_ne_zero (s : String) (h : s.data ≠ []) :
    s.length ≠ 0 := by
  obtain ⟨l⟩ := s
  cases l with
  | nil => exact absurd rfl h
  | cons a as => simp [String.length]

theorem jsTrim_jsNumToString_length_ne_zero (v : JSNum) :
    (jsTrim (jsNumToString v)).length ≠ 0 := by
  rw [jsTrim_eq_self _ (jsNumToString_not_whitespace v)]
  exact string_length_ne_zero _ (jsNumToString_ne_nil v)

theorem validator_people_bounds (v : JSNum)
    (h : validator { value := JSValue.num v, required := true,
                     min := some 0, max := some 5 } = true) :
    ∃ n : Int, v = JSNum.int n ∧ 0 ≤ n ∧ n ≤ 5 := by
  cases v with
  | nan => exact absurd h (by decide)
  | int n =>
    simp [validator, jsGe, jsLe] at h
    exact ⟨n, rfl, h.1.2, h.2⟩

theorem updateListeners_concat {σ : Type} (listeners : List (Listener σ))
    (l : Listener σ) (projects : List Project) (env : σ) :
    updateListeners (addListener listeners l) projects env
      = l projects (updateListeners listeners projects env) := by
  simp [updateListeners, addListener, List.foldl_concat]

/-! ### Claim theorems -/

/-- C8: The store's project sequence always lists projects in creation order.
`addProjects` only appends the new project at the end, and `moveProject` keeps
length and order, changing at most a status field: the id/title/description/
people projection of the sequence is untouched.  No operation removes a
project. -/
theorem store_append_and_status_only :
    (∀ (ps : List Project) (newId title description : String) (people : JSNum),
      (addProjects ps newId title description people).1
        = ps ++ [⟨newId, title, description, people, ProjectStatus.Active⟩])
    ∧ (∀ (ps : List Project) (pid : String) (st : ProjectStatus),
      ((moveProject ps pid st).1).map projectCore = ps.map projectCore
        ∧ ((moveProject ps pid st).1).length = ps.length) := by
  constructor
  · intro ps newId title description people
    rfl
  · intro ps pid st
    refine ⟨moveProject_map_core ps pid st, ?_⟩
    have h := congrArg List.length (moveProject_map_core ps pid st)
    simpa using h

/-- C5: For every delivered sequence, the active lane's filter and the
finished lane's filter partition it: both are order-preserving sublists, the
lengths add up to the whole, membership in each lane is exactly membership in
the sequence with the matching status, and no project is in both lanes. -/
theorem lane_filter_partition (ps : List Project) :
    List.Sublist (relevantProjects LaneType.active ps) ps
    ∧ List.Sublist (relevantProjects LaneType.finished ps) ps
    ∧ (relevantProjects LaneType.active ps).length
        + (relevantProjects LaneType.finished ps).length = ps.length
    ∧ (∀ p ∈ ps, p ∈ relevantProjects LaneType.active ps
        ∨ p ∈ relevantProjects LaneType.finished ps)
    ∧ (∀ p : Project, p ∈ relevantProjects LaneType.active ps
        ↔ p ∈ ps ∧ p.status = ProjectStatus.Active)
    ∧ (∀ p : Project, p ∈ relevantProjects LaneType.finished ps
        ↔ p ∈ ps ∧ p.status = ProjectStatus.Finished)
    ∧ (∀ p : Project, ¬(p ∈ relevantProjects LaneType.active ps
        ∧ p ∈ relevantProjects LaneType.finished ps)) := by
  refine ⟨List.filter_sublist ps, List.filter_sublist ps, ?_, ?_, ?_, ?_, ?_⟩
  · induction ps with
    | nil => rfl
    | cons p rest ih =>
      cases hp : p.status <;>
        simp [relevantProjects, List.filter_cons, hp] at ih ⊢ <;> omega
  · intro p hp
    cases hst : p.status
    · exact Or.inl (by simp [relevantProjects, List.mem_filter, hp, hst])
    · exact Or.inr (by simp [relevantProjects, List.mem_filter, hp, hst])
  · intro p
    simp [relevantProjects, List.mem_filter]
  · intro p
    simp [relevantProjects, List.mem_filter]
  · intro p ⟨h1, h2⟩
    simp [relevantProjects, List.mem_filter] at h1 h2
    rw [h1.2] at h2
    exact ProjectStatus.noConfusion h2.2

/-- C5 witness: on a concrete two-project store the lanes split as stated. -/
theorem lane_filter_partition_witness :
    (⟨"a", "t", "d", JSNum.int 1, ProjectStatus.Active⟩ : Project)
        ∈ relevantProjects LaneType.active
          [⟨"a", "t", "d", JSNum.int 1, ProjectStatus.Active⟩,
           ⟨"b", "t", "d", JSNum.int 2, ProjectStatus.Finished⟩]
      ∨ (⟨"a", "t", "d", JSNum.int 1, ProjectStatus.Active⟩ : Project)
        ∈ relevantProjects LaneType.finished
          [⟨"a", "t", "d", JSNum.int 1, ProjectStatus.Active⟩,
           ⟨"b", "t", "d", JSNum.int 2, ProjectStatus.Finished⟩] :=
  (lane_filter_partition
    [⟨"a", "t", "d", JSNum.int 1, ProjectStatus.Active⟩,
     ⟨"b", "t", "d", JSNum.int 2, ProjectStatus.Finished⟩]).2.2.2.1
    ⟨"a", "t", "d", JSNum.int 1, ProjectStatus.Active⟩ (by simp)

/-- C2: `moveProject` looks up the first project with the given id.  If none
exists, or its status already equals the target, the call returns the store
unchanged and fires no notification.  Otherwise exactly the first match has
its status set (everything before it has a different id), and exactly one
notification carrying the updated sequence is fired. -/
theorem moveProject_cases (ps : List Project) (pid : String)
    (st : ProjectStatus) :
    (ps.find? (fun el => el.id == pid) = none → moveProject ps pid st = (ps, []))
    ∧ (∀ p, ps.find? (fun el => el.id == pid) = some p → p.status = st →
        moveProject ps pid st = (ps, []))
    ∧ (∀ p, ps.find? (fun el => el.id == pid) = some p → p.status ≠ st →
        ∃ pre post, ps = pre ++ p :: post ∧ (∀ q ∈ pre, q.id ≠ pid) ∧ p.id = pid ∧
          moveProject ps pid st
            = (pre ++ { p with status := st } :: post,
               [pre ++ { p with status := st } :: post])) := by
  refine ⟨?_, ?_, ?_⟩
  · intro h
    simp [moveProject, h]
  · intro p hfind hst
    simp [moveProject, hfind, hst]
  · intro p hfind hst
    obtain ⟨pre, post, hsplit, hpre, hpid, hset⟩ := find?_some_context ps pid p hfind
    refine ⟨pre, post, hsplit, ?_, hpid, ?_⟩
    · intro q hq
      have := hpre q hq
      simpa using this
    · simp [moveProject, hfind, hst, hset st]

/-- C2 witness: moving an id absent from a singleton store is a silent no-op. -/
theorem moveProject_cases_witness :
    moveProject [⟨"a", "t", "d", JSNum.int 1, ProjectStatus.Active⟩] "b"
        ProjectStatus.Finished
      = ([⟨"a", "t", "d", JSNum.int 1, ProjectStatus.Active⟩], []) :=
  (moveProject_cases [⟨"a", "t", "d", JSNum.int 1, ProjectStatus.Active⟩] "b"
    ProjectStatus.Finished).1 (by decide)

/-- C3 counterexample: on the empty store the FIRST call to `moveProject`
already fires zero notifications, so the claim's "exactly one notification on
the first call", stated for every store state and id, is false. -/
theorem moveProject_idempotent_counterexample :
    ¬(((moveProject ([] : List Project) "x" ProjectStatus.Active).2.length = 1)
      ∧ ((moveProject (moveProject ([] : List Project) "x" ProjectStatus.Active).1
            "x" ProjectStatus.Active).2.length = 0)
      ∧ (moveProject (moveProject ([] : List Project) "x" ProjectStatus.Active).1
            "x" ProjectStatus.Active).1
          = (moveProject ([] : List Project) "x" ProjectStatus.Active).1) := by
  decide

/-- C3 (amended): repeating `moveProject` with the same arguments is
idempotent: the second call fires zero notifications and leaves the store
exactly as after the first call, and the first call fires at most one
notification (exactly one when a project with that id and a different status
exists, zero otherwise). -/
theorem moveProject_second_call_noop (ps : List Project) (pid : String)
    (st : ProjectStatus) :
    (moveProject (moveProject ps pid st).1 pid st).2 = []
    ∧ (moveProject (moveProject ps pid st).1 pid st).1 = (moveProject ps pid st).1
    ∧ (moveProject ps pid st).2.length ≤ 1
    ∧ ((moveProject ps pid st).2.length = 1 ↔
        ∃ p, ps.find? (fun el => el.id == pid) = some p ∧ p.status ≠ st)
    ∧ ((moveProject ps pid st).2.length = 0 ↔
        ¬∃ p, ps.find? (fun el => el.id == pid) = some p ∧ p.status ≠ st) := by
  cases hfind : ps.find? (fun el => el.id == pid) with
  | none =>
    simp [moveProject, hfind]
  | some p =>
    by_cases hst : p.status = st
    · simp [moveProject, hfind, hst]
    · obtain ⟨pre, post, hsplit, hpre, hpid, hset⟩ :=
        find?_some_context ps pid p hfind
      have hfirst : moveProject ps pid st
          = (pre ++ { p with status := st } :: post,
             [pre ++ { p with status := st } :: post]) := by
        simp [moveProject, hfind, hst, hset st]
      have hfind2 : (pre ++ { p with status := st } :: post).find?
          (fun el => el.id == pid) = some { p with status := st } :=
        find?_append_first pre post _ pid hpre (by simpa using hpid)
      rw [hfirst]
      simp [moveProject, hfind2, hfind, hst]

/-- C3 (amended) witness: moving a present project to a different status
fires exactly one notification on the first call. -/
theorem moveProject_second_call_noop_witness :
    (moveProject [⟨"a", "t", "d", JSNum.int 1, ProjectStatus.Active⟩] "a"
      ProjectStatus.Finished).2.length = 1 :=
  (moveProject_second_call_noop
    [⟨"a", "t", "d", JSNum.int 1, ProjectStatus.Active⟩] "a"
    ProjectStatus.Finished).2.2.2.1.mpr
    ⟨⟨"a", "t", "d", JSNum.int 1, ProjectStatus.Active⟩, by decide, by decide⟩

theorem updateListeners_recListeners (n : Nat) (ps : List Project) (tr : Trace) :
    updateListeners (recListeners n) ps tr
      = tr ++ (List.range n).map (fun i => (i, ps)) := by
  induction n with
  | zero => simp [updateListeners, recListeners]
  | succ n ih =>
    rw [recListeners, updateListeners_concat, ih]
    simp [recListener, List.range_succ]

/-- C4: Notification contract.  Registering `n` subscribers and firing a
notification invokes every subscriber exactly once, in registration order,
each receiving the full snapshot (so each delivered sequence has the store's
current length); and every notification event fired by `addProjects` or
`moveProject` carries exactly the store's full post-operation sequence. -/
theorem notification_contract :
    (∀ (n : Nat) (ps : List Project) (tr : Trace),
      updateListeners (recListeners n) ps tr
        = tr ++ (List.range n).map (fun i => (i, ps)))
    ∧ (∀ (ps : List Project) (newId title description : String) (people : JSNum),
      ∀ snap ∈ (addProjects ps newId title description people).2,
        snap = (addProjects ps newId title description people).1
          ∧ snap.length = (addProjects ps newId title description people).1.length)
    ∧ (∀ (ps : List Project) (pid : String) (st : ProjectStatus),
      ∀ snap ∈ (moveProject ps pid st).2,
        snap = (moveProject ps pid st).1
          ∧ snap.length = (moveProject ps pid st).1.length) := by
  refine ⟨updateListeners_recListeners, ?_, ?_⟩
  · intro ps newId title description people snap hsnap
    simp [addProjects] at hsnap
    simp [addProjects, hsnap]
  · intro ps pid st snap hsnap
    cases hfind : ps.find? (fun el => el.id == pid) with
    | none => simp [moveProject, hfind] at hsnap
    | some p =>
      by_cases hst : p.status ≠ st
      · simp only [moveProject, hfind, if_pos hst, List.mem_singleton] at hsnap
        simp [moveProject, hfind, if_pos hst, hsnap]
      · simp [moveProject, hfind, hst] at hsnap

/-- C4 witness: the single event fired by a concrete `addProjects` call
carries the full one-element sequence. -/
theorem notification_contract_witness :
    ([⟨"i", "t", "d", JSNum.int 1, ProjectStatus.Active⟩] : List Project)
      = (addProjects [] "i" "t" "d" (JSNum.int 1)).1
    ∧ ([⟨"i", "t", "d", JSNum.int 1, ProjectStatus.Active⟩] : List Project).length
      = (addProjects [] "i" "t" "d" (JSNum.int 1)).1.length :=
  notification_contract.2.1 [] "i" "t" "d" (JSNum.int 1)
    [⟨"i", "t", "d", JSNum.int 1, ProjectStatus.Active⟩] (by decide)

/-- C1: For a valid (title, description, people) triple and a generated id
that is fresh (the property `Math.random` is relied on to provide),
`addProjects` grows the store by exactly one, appends the new project at the
end, the new project has status Active, and its id differs from every id
already in the store. -/
theorem addProjects_spec (ps : List Project) (newId title description : String)
    (people : JSNum)
    (_hTitle : validator { value := JSValue.str title, required := true } = true)
    (_hDescription : validator
      { value := JSValue.str description, required := true,
        minLength := some 5 } = true)
    (_hPeople : validator
      { value := JSValue.num people, required := true,
        min := some 0, max := some 5 } = true)
    (hFresh : newId ∉ ps.map Project.id) :
    (addProjects ps newId title description people).1.length = ps.length + 1
    ∧ (addProjects ps newId title description people).1
        = ps ++ [⟨newId, title, description, people, ProjectStatus.Active⟩]
    ∧ (addProjects ps newId title description people).1.getLast?
        = some ⟨newId, title, description, people, ProjectStatus.Active⟩
    ∧ (⟨newId, title, description, people, ProjectStatus.Active⟩ : Project).status
        = ProjectStatus.Active
    ∧ ∀ p ∈ ps, p.id ≠ newId := by
  refine ⟨by simp [addProjects], rfl, ?_, rfl, ?_⟩
  · simp [addProjects]
  · intro p hp hcontra
    exact hFresh (List.mem_map.mpr ⟨p, hp, hcontra⟩)

/-- C1 witness: a concrete valid submission onto the empty store. -/
theorem addProjects_spec_witness :
    (addProjects [] "0.123" "A" "abcde" (JSNum.int 3)).1.length
        = ([] : List Project).length + 1
    ∧ (addProjects [] "0.123" "A" "abcde" (JSNum.int 3)).1
        = [] ++ [⟨"0.123", "A", "abcde", JSNum.int 3, ProjectStatus.Active⟩]
    ∧ (addProjects [] "0.123" "A" "abcde" (JSNum.int 3)).1.getLast?
        = some ⟨"0.123", "A", "abcde", JSNum.int 3, ProjectStatus.Active⟩
    ∧ (⟨"0.123", "A", "abcde", JSNum.int 3, ProjectStatus.Active⟩ : Project).status
        = ProjectStatus.Active
    ∧ ∀ p ∈ ([] : List Project), p.id ≠ "0.123" :=
  addProjects_spec [] "0.123" "A" "abcde" (JSNum.int 3)
    (by decide) (by decide) (by decide) (by decide)

/-- C6: The validator returns true iff every configured constraint that
applies to the value's type is satisfied: length constraints are skipped on
numbers, numeric bounds on strings, and the checks are conjunctive.  (As a
total Lean function it throws nothing and has no side effects.) -/
theorem validator_iff_spec (arg : Validatable) :
    validator arg = true ↔ validatorSpec arg := by
  obtain ⟨value, required, minLength, maxLength, lo, hi⟩ := arg
  cases required <;> cases value <;>
    rcases minLength with _ | ml <;> rcases maxLength with _ | Ml <;>
    rcases lo with _ | lo <;> rcases hi with _ | hi <;>
    simp [validator, validatorSpec, and_assoc]

/-- C6 witness: the contract instantiated at a concrete passing argument. -/
theorem validator_iff_spec_witness :
    validatorSpec
      { value := JSValue.str "hello", required := true, minLength := some 5 } :=
  (validator_iff_spec
    { value := JSValue.str "hello", required := true, minLength := some 5 }).mp
    (by decide)

/-- C7: A form submission has exactly one of two effects.  If the three field
validations (title required; description required, min length 5; people
required, in [0,5]) do not all pass, the warning fires, the store and the
field contents are unchanged and no notification is sent.  If they all pass,
the project is added (one notification) and all three fields are cleared. -/
theorem handleSubmit_spec (fields : FormFields) (ps : List Project)
    (newId : String) :
    ((validator { value := JSValue.str fields.title, required := true }
      && validator { value := JSValue.str fields.description, required := true,
                     minLength := some 5 }
      && validator { value := JSValue.num (toNumber fields.people),
                     required := true, min := some 0, max := some 5 }) = false →
      handleSubmit fields ps newId = ⟨fields, ps, [], true⟩)
    ∧ ((validator { value := JSValue.str fields.title, required := true }
      && validator { value := JSValue.str fields.description, required := true,
                     minLength := some 5 }
      && validator { value := JSValue.num (toNumber fields.people),
                     required := true, min := some 0, max := some 5 }) = true →
      handleSubmit fields ps newId
        = ⟨⟨"", "", ""⟩,
           ps ++ [⟨newId, fields.title, fields.description,
                   toNumber fields.people, ProjectStatus.Active⟩],
           [ps ++ [⟨newId, fields.title, fields.description,
                   toNumber fields.people, ProjectStatus.Active⟩]],
           false⟩) := by
  cases h1 : validator { value := JSValue.str fields.title, required := true } <;>
  cases h2 : validator { value := JSValue.str fields.description, required := true,
                         minLength := some 5 } <;>
  cases h3 : validator { value := JSValue.num (toNumber fields.people),
                         required := true, min := some 0, max := some 5 } <;>
    simp [handleSubmit, gatherUserInput, addProjects, h1, h2, h3]

/-- C7 witness: a concrete passing submission adds the project and clears the
fields. -/
theorem handleSubmit_spec_witness :
    handleSubmit ⟨"A", "abcde", "3"⟩ [] "id0"
      = ⟨⟨"", "", ""⟩,
         [⟨"id0", "A", "abcde", toNumber "3", ProjectStatus.Active⟩],
         [[⟨"id0", "A", "abcde", toNumber "3", ProjectStatus.Active⟩]],
         false⟩ :=
  (handleSubmit_spec ⟨"A", "abcde", "3"⟩ [] "id0").2 (by decide)

theorem gatherUserInput_some (title description people : String)
    (t d : String) (num : JSNum)
    (h : gatherUserInput title description people = some (t, d, num)) :
    t = title ∧ d = description ∧ num = toNumber people
    ∧ validator { value := JSValue.num (toNumber people), required := true,
                  min := some 0, max := some 5 } = true := by
  unfold gatherUserInput at h
  split at h
  · exact absurd h (by simp)
  · rename_i hcond
    have e := Option.some.inj h
    obtain ⟨e1, e2, e3⟩ : title = t ∧ description = d ∧ toNumber people = num := by
      simpa [Prod.ext_iff] using e
    have hfalse : (!validator { value := JSValue.str title, required := true }
        || !validator { value := JSValue.str description, required := true,
                        minLength := some 5 }
        || !validator { value := JSValue.num (toNumber people), required := true,
                        min := some 0, max := some 5 }) = false := by
      cases hb : (!validator { value := JSValue.str title, required := true }
          || !validator { value := JSValue.str description, required := true,
                          minLength := some 5 }
          || !validator { value := JSValue.num (toNumber people), required := true,
                          min := some 0, max := some 5 })
      · rfl
      · exact absurd hb hcond
    simp only [Bool.or_eq_false_iff, Bool.not_eq_false'] at hfalse
    exact ⟨e1.symm, e2.symm, e3.symm, hfalse.2⟩

/-- C9 counterexample: submitting the people field "0" passes every
validation and creates a reachable store whose single project has people = 0,
which is not strictly positive. -/
theorem people_positive_counterexample :
    Reachable [⟨"id0", "A", "abcde", JSNum.int 0, ProjectStatus.Active⟩]
    ∧ ¬(∀ p ∈ [(⟨"id0", "A", "abcde", JSNum.int 0,
          ProjectStatus.Active⟩ : Project)],
        ∃ n : Int, p.people = JSNum.int n ∧ 0 < n) := by
  constructor
  · have h := Reachable.submit ⟨"A", "abcde", "0"⟩ "id0" Reachable.init
    have e : (handleSubmit ⟨"A", "abcde", "0"⟩ [] "id0").projects
        = [⟨"id0", "A", "abcde", JSNum.int 0, ProjectStatus.Active⟩] := by decide
    rwa [e] at h
  · intro hall
    obtain ⟨n, hn, hpos⟩ := hall _ (List.mem_singleton.mpr rfl)
    injection hn with hn'
    omega

/-- C9 (amended): in every store state reachable through the program's public
interface, every project's people attribute is a number between 0 and 5
inclusive (it need not be strictly positive: 0 is reachable). -/
theorem people_bounds_reachable :
    ∀ ps, Reachable ps → ∀ p ∈ ps,
      ∃ n : Int, p.people = JSNum.int n ∧ 0 ≤ n ∧ n ≤ 5 := by
  intro ps h
  induction h with
  | init =>
    intro p hp
    simp at hp
  | submit fields newId hr ih =>
    intro p hp
    cases hg : gatherUserInput fields.title fields.description fields.people with
    | none =>
      simp only [handleSubmit, hg] at hp
      exact ih p hp
    | some tpl =>
      obtain ⟨t, d, num⟩ := tpl
      obtain ⟨ht, hd, hnum, hv⟩ :=
        gatherUserInput_some fields.title fields.description fields.people
          t d num hg
      simp only [handleSubmit, hg, addProjects] at hp
      rcases List.mem_append.mp hp with hmem | hmem
      · exact ih p hmem
      · have hp' : p = ⟨newId, t, d, num, ProjectStatus.Active⟩ :=
          List.mem_singleton.mp hmem
        obtain ⟨n, hn, h0, h5⟩ := validator_people_bounds (toNumber fields.people) hv
        exact ⟨n, by rw [hp', hnum]; exact hn, h0, h5⟩
  | move pid st hr ih =>
    rename_i ps'
    intro p hp
    have hcore : projectCore p ∈ ps'.map projectCore := by
      rw [← moveProject_map_core ps' pid st]
      exact List.mem_map_of_mem projectCore hp
    obtain ⟨q, hq, hqp⟩ := List.mem_map.mp hcore
    have hpeople : q.people = p.people := by
      have := congrArg (fun t => t.2.2.2) hqp
      simpa [projectCore] using this
    obtain ⟨n, hn, h0, h5⟩ := ih q hq
    exact ⟨n, hpeople ▸ hn, h0, h5⟩

/-- C9 witness: the amended bound instantiated on a concrete reachable
state. -/
theorem people_bounds_reachable_witness :
    ∃ n : Int,
      (⟨"id0", "A", "abcde", JSNum.int 3, ProjectStatus.Active⟩ : Project).people
          = JSNum.int n ∧ 0 ≤ n ∧ n ≤ 5 := by
  have h := Reachable.submit ⟨"A", "abcde", "3"⟩ "id0" Reachable.init
  have e : (handleSubmit ⟨"A", "abcde", "3"⟩ [] "id0").projects
      = [⟨"id0", "A", "abcde", JSNum.int 3, ProjectStatus.Active⟩] := by decide
  rw [e] at h
  exact people_bounds_reachable _ h _ (List.mem_singleton.mpr rfl)

/-- C10: For every numeric value the validator's required constraint holds
(the decimal string form of a number is never empty, 0 and NaN included), so
an empty people field, which coerces to the number 0, passes the full people
validation and a submission with it creates a project with people = 0. -/
theorem numeric_required_always_true :
    (∀ v : JSNum,
      validator { value := JSValue.num v, required := true } = true)
    ∧ toNumber "" = JSNum.int 0
    ∧ validator { value := JSValue.num (toNumber ""), required := true,
                  min := some 0, max := some 5 } = true
    ∧ (handleSubmit ⟨"Title", "abcde", ""⟩ [] "id0").projects
        = [⟨"id0", "Title", "abcde", JSNum.int 0, ProjectStatus.Active⟩] := by
  refine ⟨?_, by decide, by decide, by decide⟩
  intro v
  have h := jsTrim_jsNumToString_length_ne_zero v
  simp [validator, jsToString, bne_iff_ne]
  exact h

example : toNumber "" = JSNum.int 0 := by decide
example : toNumber " 3 " = JSNum.int 3 := by decide
example : toNumber "-12" = JSNum.int (-12) := by decide
example : toNumber "abc" = JSNum.nan := by decide
example : toNumber "-" = JSNum.nan := by decide
example : validator { value := JSValue.str "", required := true } = false := by decide
example : validator { value := JSValue.str "hello", required := true, minLength := some 5 } = true := by decide
example : validator { value := JSValue.num (JSNum.int 3), min := some 0, max := some 5 } = true := by decide
example : validator { value := JSValue.num (JSNum.int 7), min := some 0, max := some 5 } = false := by decide
example : jsNumToString (JSNum.int 0) = "0" := by decide
example : jsNumToString (JSNum.int (-42)) = "-42" := by decide
